import Mathlib

/-!
Verification development for the AI shopping-assistant message pipeline
(`lib/edibleApi.js` and `lib/aiPipeline.js`).

Shallow embedding conventions:
* Catalog products are records over `String`/`Option ℚ`/`Bool`/`Nat` fields;
  JSON-absent string fields are modelled as `""` (the source normalises them
  with `|| ""` and truthiness checks), absent numbers as `none`.
* External effects (the inference endpoint, the catalog HTTP endpoint, the
  wall clock, `JSON.parse`) are oracles passed as parameters; each embedded
  function additionally returns the ordered list of external `Event`s it
  performs, so that "never calls X" claims are statable.
* The in-memory search cache (`Map` keyed by lower-cased trimmed keyword) is
  threaded explicitly as an association list.
* JavaScript `Array.prototype.sort` is stable (ES2019); the ranking
  comparator induces a total preorder, for which every stable sort computes
  the same list, so it is embedded as an insertion sort over that preorder.
-/

/-- A raw catalog record, as consumed by `edibleApi.js` / `aiPipeline.js`.
Field names follow the source (including the `ingrediantNames` spelling and
the `@search.score` relevance score, here `searchScore`). -/
structure Product where
  id : String := ""
  name : String := ""
  description : String := ""
  image : String := ""
  thumbnail : String := ""
  minPrice : Option ℚ := none
  maxPrice : Option ℚ := none
  url : String := ""
  occasion : String := ""
  category : String := ""
  ingrediantNames : String := ""
  sizeCount : Nat := 0
  isOneHourDelivery : Bool := false
  productImageTag : String := ""
  nonPromo : String := ""
  promo : String := ""
  isMinSizeOnSale : Bool := false
  minsizeProductPrice : Option ℚ := none
  allergyinformation : String := ""
  catalogCode : String := ""
  searchScore : ℚ := 0
  deriving Repr, DecidableEq

/-- The display projection produced by `formatProductForDisplay`. -/
structure DisplayProduct where
  id : String := ""
  name : String := ""
  description : String := ""
  image : String := ""
  thumbnail : String := ""
  minPrice : Option ℚ := none
  maxPrice : Option ℚ := none
  url : String := ""
  occasion : String := ""
  category : String := ""
  ingredients : String := ""
  sizeCount : Nat := 1
  isOneHourDelivery : Bool := false
  productTag : String := ""
  promo : String := ""
  onSale : Bool := false
  originalPrice : Option ℚ := none
  allergyInfo : String := ""
  catalogCode : String := ""
  deriving Repr, DecidableEq

/-- The token-economical projection produced by `cleanProductForLLM`. -/
structure CleanProduct where
  id : String := ""
  name : String := ""
  description : String := ""
  minPrice : Option ℚ := none
  maxPrice : Option ℚ := none
  occasion : String := ""
  category : String := ""
  ingredients : String := ""
  sizeOptions : Nat := 1
  isOneHourDelivery : Bool := false
  productTag : String := ""
  promo : String := ""
  onSale : Bool := false
  originalPrice : Option ℚ := none
  deriving Repr, DecidableEq

/-- The structured intent extracted once per user turn (shape of the JSON the
intent-extraction prompt requests, with the fallback fields of
`extractIntent`). -/
structure Intent where
  search_keywords : List String := []
  occasion : Option String := none
  budget_min : Option ℚ := none
  budget_max : Option ℚ := none
  recipient : Option String := none
  dietary_restrictions : List String := []
  urgency : Option String := none
  product_type_preference : String := "any"
  intent_type : String := "browse"
  needs_clarification : Bool := false
  clarification_topic : Option String := none
  sentiment : String := "neutral"
  deriving Repr, DecidableEq

/-- One conversation turn (role + text); history is a caller-owned list. -/
structure Turn where
  role : String
  content : String
  deriving Repr, DecidableEq

/-- External actions performed by the embedded code, in order:
`llmComplete`/`llmStream` are inference-gateway calls, `clientSearch` is an
invocation of the Catalog Client's `searchProducts`, `netRequest` is an
actual HTTP POST to the catalog endpoint. -/
inductive Event where
  | llmComplete : Event
  | llmStream : Event
  | clientSearch : String → Event
  | netRequest : String → Event
  deriving Repr, DecidableEq

/-- Outcome of one catalog HTTP request: parsed body, non-2xx status, or a
transport/parse failure (both land in the same `catch` in the source). -/
inductive NetResult where
  | ok : List Product → NetResult
  | httpError : Nat → NetResult
  | transportError : NetResult
  deriving Repr, DecidableEq

/-- The catalog client's cache: keyword ↦ (data, timestamp), modelling the
module-level `searchCache` `Map`. -/
abbrev Cache := List (String × List Product × Nat)

/-- The catalog client's external context: the network oracle (response per
keyword) and the current clock reading (`Date.now()`), in milliseconds. -/
structure SearchCtx where
  net : String → NetResult
  now : Nat

/-- JS `String.trim()`: strip leading and trailing whitespace (computed over
the character list so that concrete witnesses evaluate). -/
def jsTrim (s : String) : String :=
  String.mk (((s.data.dropWhile Char.isWhitespace).reverse.dropWhile Char.isWhitespace).reverse)

/-- JS `String.toLowerCase()` (ASCII case mapping). -/
def jsToLower (s : String) : String :=
  String.mk (s.data.map Char.toLower)

/-- JS `String.startsWith(pre)`. -/
def strStartsWith (s pre : String) : Bool :=
  pre.data.isPrefixOf s.data

/-- JS `String.split(" ")`: split at every single space, keeping empty
pieces. -/
def splitAtSpaces : List Char → List (List Char)
  | [] => [[]]
  | c :: rest =>
      if c = ' ' then [] :: splitAtSpaces rest
      else
        match splitAtSpaces rest with
        | g :: gs => (c :: g) :: gs
        | [] => [[c]]

/-- JS `String.split(" ")` over strings. -/
def jsSplitSpace (s : String) : List String :=
  (splitAtSpaces s.data).map String.mk

/-- JS `Array.join(" ")`. -/
def joinSpace : List String → String
  | [] => ""
  | [s] => s
  | s :: rest => s ++ " " ++ joinSpace rest

/-- `CACHE_TTL = 5 * 60 * 1000` (five minutes, in milliseconds). -/
def CACHE_TTL : Nat := 5 * 60 * 1000

/-- `searchCache.get`/`has`, as first-match lookup in the association list. -/
def cacheLookup (cache : Cache) (k : String) : Option (List Product × Nat) :=
  (cache.find? (fun e => e.1 = k)).map (fun e => e.2)

/-- `searchCache.delete k`. -/
def cacheDelete (cache : Cache) (k : String) : Cache :=
  cache.filter (fun e => ¬ e.1 = k)

/-- `searchCache.set k v` (JS `Map.set`: update in place if present, else
append in insertion order). -/
def cacheSet (cache : Cache) (k : String) (v : List Product × Nat) : Cache :=
  if cache.any (fun e => e.1 = k) then
    cache.map (fun e => if e.1 = k then (k, v) else e)
  else cache ++ [(k, v)]

/-- The `try { fetch … } catch` body of `searchProducts`: a successful
response is cached and returned; a non-2xx status or a transport/JSON
failure is swallowed and yields `[]`. -/
def fetchProducts (ctx : SearchCtx) (cache : Cache) (cacheKey : String) :
    List Product × Cache × List Event :=
  match ctx.net cacheKey with
  | NetResult.ok data => (data, cacheSet cache cacheKey (data, ctx.now), [Event.netRequest cacheKey])
  | NetResult.httpError _ => ([], cache, [Event.netRequest cacheKey])
  | NetResult.transportError => ([], cache, [Event.netRequest cacheKey])

/-- `searchProducts(keyword)` from `edibleApi.js`: empty/whitespace-only
keyword short-circuits to `[]`; otherwise the cache is consulted under the
lower-cased trimmed key (a fresh entry is served, an expired entry is
deleted) before fetching. `!keyword || keyword.trim().length === 0` is
equivalent to `keyword.trim() = ""`. -/
def searchProducts (ctx : SearchCtx) (cache : Cache) (keyword : String) :
    List Product × Cache × List Event :=
  if jsTrim keyword = "" then ([], cache, [Event.clientSearch keyword])
  else
    let cacheKey := jsTrim (jsToLower keyword)
    match cacheLookup cache cacheKey with
    | some cached =>
        if ctx.now - cached.2 < CACHE_TTL then
          (cached.1, cache, [Event.clientSearch keyword])
        else
          let cache1 := cacheDelete cache cacheKey
          let r := fetchProducts ctx cache1 cacheKey
          (r.1, r.2.1, Event.clientSearch keyword :: r.2.2)
    | none =>
        let r := fetchProducts ctx cache cacheKey
        (r.1, r.2.1, Event.clientSearch keyword :: r.2.2)

/-- The per-keyword fan-out of `multiSearch` (`Promise.all(keywords.map
searchProducts)`), collecting the per-keyword result sets in keyword order.
The shared cache is threaded sequentially: the network oracle is a function
of the keyword alone, so every interleaving of the concurrent sub-searches
returns the same per-keyword results. -/
def runSearches (ctx : SearchCtx) : Cache → List String → List (List Product) × Cache × List Event
  | cache, [] => ([], cache, [])
  | cache, kw :: rest =>
      let r := searchProducts ctx cache kw
      let rs := runSearches ctx r.2.1 rest
      (r.1 :: rs.1, rs.2.1, r.2.2 ++ rs.2.2)

/-- One step of the merge loop in `multiSearch`: state is (`seen` id set,
`merged` array); a product is appended iff its id is unseen. -/
def dedupStep (st : List String × List Product) (p : Product) : List String × List Product :=
  if st.1.contains p.id then st else (p.id :: st.1, st.2 ++ [p])

/-- The nested merge/deduplicate loops of `multiSearch` over the per-keyword
result sets. -/
def dedupById (resultSets : List (List Product)) : List Product :=
  (resultSets.foldl (fun st resultSet => resultSet.foldl dedupStep st) ([], [])).2

/-- `multiSearch(keywords)` from `edibleApi.js`. The argument is `Option`al
to capture the `!keywords` (absent-list) guard alongside the empty-list
guard; both return `[]` without any search. -/
def multiSearch (ctx : SearchCtx) (cache : Cache) (keywords? : Option (List String)) :
    List Product × Cache × List Event :=
  match keywords? with
  | none => ([], cache, [])
  | some keywords =>
      if keywords.length = 0 then ([], cache, [])
      else
        let rs := runSearches ctx cache keywords
        (dedupById rs.1, rs.2.1, rs.2.2)

/-- `p.minPrice != null && p.minPrice >= b`. -/
def minPriceGe (p : Product) (b : ℚ) : Bool :=
  match p.minPrice with
  | some mp => b ≤ mp
  | none => false

/-- `p.minPrice != null && p.minPrice <= b`. -/
def minPriceLe (p : Product) (b : ℚ) : Bool :=
  match p.minPrice with
  | some mp => mp ≤ b
  | none => false

/-- JS `haystack.includes(needle)`: contiguous-substring containment, over
the underlying character lists. -/
def strIncludes (haystack needle : String) : Bool :=
  decide (List.IsInfix needle.data haystack.data)

/-- `p.occasion && p.occasion.toLowerCase().includes(occ.toLowerCase())`. -/
def occMatch (occ : String) (p : Product) : Bool :=
  ¬ p.occasion = "" ∧ strIncludes (jsToLower p.occasion) (jsToLower occ)

/-- `!excludeIngredients.some(exc => ingredients.includes(exc.toLowerCase()))`
with `ingredients = (p.ingrediantNames || "").toLowerCase()`. -/
def dietOk (excl : List String) (p : Product) : Bool :=
  ¬ excl.any (fun exc => strIncludes (jsToLower p.ingrediantNames) (jsToLower exc))

/-- Step (1) of `filterProducts`: the `minBudget` filter (skipped when the
filter is absent). -/
def budgetMinStep (f_minBudget : Option ℚ) (l : List Product) : List Product :=
  match f_minBudget with
  | some b => l.filter (fun p => minPriceGe p b)
  | none => l

/-- Step (2) of `filterProducts`: the `maxBudget` filter. -/
def budgetMaxStep (f_maxBudget : Option ℚ) (l : List Product) : List Product :=
  match f_maxBudget with
  | some b => l.filter (fun p => minPriceLe p b)
  | none => l

/-- Step (3) of `filterProducts`: the occasion filter with its fallback —
if the substring filter would empty the set, the input (the budget-filtered
set) is kept. The JS truthiness guard `if (filters.occasion)` skips the
step for an absent or empty occasion string. -/
def occasionStep (f_occasion : Option String) (l : List Product) : List Product :=
  match f_occasion with
  | some occ =>
      if occ = "" then l
      else
        let f2 := l.filter (occMatch occ)
        if f2 = [] then l else f2
  | none => l

/-- Step (4) of `filterProducts`: the dietary/ingredient exclusion. -/
def dietStep (f_excl : List String) (l : List Product) : List Product :=
  if f_excl.isEmpty then l else l.filter (dietOk f_excl)

/-- Step (5) of `filterProducts`: the one-hour-delivery filter. -/
def urgentStep (f_urgent : Bool) (l : List Product) : List Product :=
  if f_urgent then l.filter (fun p => p.isOneHourDelivery) else l

/-- The filter criteria record of `filterProducts` (fields set by
`filterAndRank`). -/
structure Filters where
  minBudget : Option ℚ := none
  maxBudget : Option ℚ := none
  occasion : Option String := none
  excludeIngredients : List String := []
  urgentDelivery : Bool := false
  deriving Repr, DecidableEq

/-- `filterProducts(products, filters)` from `edibleApi.js`: the five
conditional filters applied in sequence, with `budgetFiltered` saved before
the occasion step so the occasion filter can fall back to it. -/
def filterProducts (products : List Product) (f : Filters) : List Product :=
  let filtered := products
  let filtered := match f.minBudget with
    | some b => filtered.filter (fun p => minPriceGe p b)
    | none => filtered
  let filtered := match f.maxBudget with
    | some b => filtered.filter (fun p => minPriceLe p b)
    | none => filtered
  let budgetFiltered := filtered
  let filtered := match f.occasion with
    | some occ =>
        if occ = "" then filtered
        else
          let f2 := filtered.filter (occMatch occ)
          if f2 = [] then budgetFiltered else f2
    | none => filtered
  let filtered := if f.excludeIngredients.isEmpty then filtered
    else filtered.filter (dietOk f.excludeIngredients)
  let filtered := if f.urgentDelivery then filtered.filter (fun p => p.isOneHourDelivery)
    else filtered
  filtered

/-- Global replacement `/<[^>]*>/g → ""` as a two-state scanner: outside a
tag (`inTag = false`), a `<` that has a later `>` opens a tag (the greedy
`[^>]*` stops exactly before the first `>`), while a `<` with no later `>`
matches nothing and is kept; inside a tag every character up to and
including the closing `>` is dropped. -/
def stripTagsAux : Bool → List Char → List Char
  | _, [] => []
  | true, c :: rest => if c = '>' then stripTagsAux false rest else stripTagsAux true rest
  | false, c :: rest =>
      if c = '<' ∧ rest.contains '>' then stripTagsAux true rest
      else c :: stripTagsAux false rest

/-- Global replacement `/<[^>]*>/g → ""`. -/
def stripTags (l : List Char) : List Char :=
  stripTagsAux false l

/-- Global replacement `/\r\n/g → " "`. -/
def replaceCRLF : List Char → List Char
  | '\r' :: '\n' :: rest => ' ' :: replaceCRLF rest
  | c :: rest => c :: replaceCRLF rest
  | [] => []

/-- The shared description sanitiser:
`description.replace(/<[^>]*>/g, "").replace(/\r\n/g, " ").trim()`. -/
def cleanDesc (s : String) : String :=
  jsTrim (String.mk (replaceCRLF (stripTags s.data)))

/-- `cleanProductForLLM(product)` from `edibleApi.js`. JS `x || y` on string
fields reads as "`x` if non-empty else `y`", on `sizeCount` as "1 when 0 or
absent". -/
def cleanProductForLLM (p : Product) : CleanProduct :=
  { id := p.id
    name := p.name
    description := cleanDesc p.description
    minPrice := p.minPrice
    maxPrice := p.maxPrice
    occasion := p.occasion
    category := p.category
    ingredients := p.ingrediantNames
    sizeOptions := if p.sizeCount = 0 then 1 else p.sizeCount
    isOneHourDelivery := p.isOneHourDelivery
    productTag := p.productImageTag
    promo := if ¬ p.nonPromo = "" then p.nonPromo else p.promo
    onSale := p.isMinSizeOnSale
    originalPrice := p.minsizeProductPrice }

/-- `formatProductForDisplay(product)` from `edibleApi.js`. -/
def formatProductForDisplay (p : Product) : DisplayProduct :=
  { id := p.id
    name := p.name
    description := cleanDesc p.description
    image := p.image
    thumbnail := p.thumbnail
    minPrice := p.minPrice
    maxPrice := p.maxPrice
    url := "https://www.ediblearrangements.com/" ++ p.url
    occasion := p.occasion
    category := p.category
    ingredients := p.ingrediantNames
    sizeCount := if p.sizeCount = 0 then 1 else p.sizeCount
    isOneHourDelivery := p.isOneHourDelivery
    productTag := p.productImageTag
    promo := if ¬ p.nonPromo = "" then p.nonPromo else p.promo
    onSale := p.isMinSizeOnSale
    originalPrice := p.minsizeProductPrice
    allergyInfo := p.allergyinformation
    catalogCode := p.catalogCode }

/-- Leading ASCII-digit run of a character list, with the remainder
(the greedy `(\d+)` group of the identifier-tag pattern). -/
def takeDigits : List Char → List Char × List Char
  | [] => ([], [])
  | c :: rest =>
      if c.isDigit then
        let r := takeDigits rest
        (c :: r.1, r.2)
      else ([], c :: rest)

/-- All matches of `/\[ID:(\d+)\]/g` over the text, captured digit groups in
match order. The JS `exec` loop resumes after each match; since a match can
only start at `[` and a matched region contains no further `[` past its
first character, resuming one character after the match start is
equivalent, which keeps the recursion structural. -/
def scanIds : List Char → List String
  | [] => []
  | '[' :: 'I' :: 'D' :: ':' :: rest2 =>
      match takeDigits rest2 with
      | (d :: ds, ']' :: _) => String.mk (d :: ds) :: scanIds ('I' :: 'D' :: ':' :: rest2)
      | _ => scanIds ('I' :: 'D' :: ':' :: rest2)
  | _ :: rest => scanIds rest

/-- First-occurrence deduplication (`if (!mentionedIds.includes(id))
mentionedIds.push(id)`, folded over the matches in order). -/
def dedupFirst (l : List String) : List String :=
  l.foldl (fun acc i => if acc.contains i then acc else acc ++ [i]) []

/-- `[ID:n]` tags of a response text, in order of first appearance with
duplicates collapsed — the extraction loop of `reorderProductsByMention`. -/
def extractMentionedIds (aiResponse : String) : List String :=
  dedupFirst (scanIds aiResponse.data)


/-- Global replacement `/```json?\n?/g → ""` (`n?` and `\n?` greedy; the
four ordered patterns spell out the optional suffix). A match can only
start at three backticks and a matched region contains no backtick after
its third character, so consuming the whole match is exactly the JS
`replace`. -/
def stripJsonFence : List Char → List Char
  | '`' :: '`' :: '`' :: 'j' :: 's' :: 'o' :: 'n' :: '\n' :: rest => stripJsonFence rest
  | '`' :: '`' :: '`' :: 'j' :: 's' :: 'o' :: 'n' :: rest => stripJsonFence rest
  | '`' :: '`' :: '`' :: 'j' :: 's' :: 'o' :: '\n' :: rest => stripJsonFence rest
  | '`' :: '`' :: '`' :: 'j' :: 's' :: 'o' :: rest => stripJsonFence rest
  | c :: rest => c :: stripJsonFence rest
  | [] => []

/-- Global replacement `/```/g → ""`. -/
def stripBackticks : List Char → List Char
  | '`' :: '`' :: '`' :: rest => stripBackticks rest
  | c :: rest => c :: stripBackticks rest
  | [] => []

/-- The markdown-unwrap of `extractIntent`: trim, and when the text starts
with a code fence, erase `/```json?\n?/g` and `/```/g` and trim again. The
result is the string handed to `JSON.parse`. -/
def stripFencesIfAny (result : String) : String :=
  let jsonStr := jsTrim result
  if strStartsWith jsonStr "```" then
    jsTrim (String.mk (stripBackticks (stripJsonFence jsonStr.data)))
  else jsonStr

/-- The fallback `Intent` built in the `catch` arm of `extractIntent`:
keywords are the first three space-separated words of the raw message. -/
def fallbackIntent (userMessage : String) : Intent :=
  { search_keywords := [joinSpace ((jsSplitSpace userMessage).take 3)]
    occasion := none
    budget_min := none
    budget_max := none
    recipient := none
    dietary_restrictions := []
    urgency := none
    product_type_preference := "any"
    intent_type := "browse"
    needs_clarification := false
    clarification_topic := none
    sentiment := "neutral" }

/-- `extractIntent` from `aiPipeline.js`, given the gateway's raw reply
`result` and the `JSON.parse` oracle `jsonParse` (`none` models a parse
exception): parse the fence-stripped reply, falling back to
`fallbackIntent` on failure. Total by construction — the JS `try`/`catch`
never lets a parse error escape. -/
def extractIntent (jsonParse : String → Option Intent) (result userMessage : String) : Intent :=
  match jsonParse (stripFencesIfAny result) with
  | some parsed => parsed
  | none => fallbackIntent userMessage

/-- Replace the first occurrence of a character (JS `String.replace` with a
string pattern replaces only the first match; used for `"_" → " "`). -/
def replaceFirstChar (pat repl : Char) : List Char → List Char
  | [] => []
  | c :: rest => if c = pat then repl :: rest else c :: replaceFirstChar pat repl rest

/-- `intent.occasion.replace("_", " ")`. -/
def underscoreToSpace (s : String) : String :=
  String.mk (replaceFirstChar '_' ' ' s.data)

/-- `searchFromIntent(intent)` from `aiPipeline.js`: keywords from the
intent, plus the occasion (when truthy, not the literal `"null"`, and not
already present), generic fallback keywords when empty, capped at 3, then
`multiSearch`. -/
def searchFromIntent (ctx : SearchCtx) (cache : Cache) (intent : Intent) :
    List Product × Cache × List Event :=
  let keywords := intent.search_keywords
  let keywords :=
    match intent.occasion with
    | some occ =>
        if ¬ occ = "" ∧ ¬ occ = "null" ∧ ¬ keywords.contains occ then
          keywords ++ [underscoreToSpace occ]
        else keywords
    | none => keywords
  let keywords := if keywords.length = 0 then ["popular gifts", "best sellers"] else keywords
  let keywords := keywords.take 3
  multiSearch ctx cache (some keywords)

/-- `-10` for a product whose `productImageTag` contains `"Top Seller"`,
else `0` — the primary sort key of `filterAndRank`. -/
def topSellerVal (p : Product) : Int :=
  if strIncludes p.productImageTag "Top Seller" then -10 else 0

/-- "`a` sorts no later than `b`": the ranking comparator of `filterAndRank`
(`aTopSeller - bTopSeller`, ties broken by descending `@search.score`)
evaluates ≤ 0. -/
def rankLE (a b : Product) : Prop :=
  if topSellerVal a = topSellerVal b then b.searchScore ≤ a.searchScore
  else topSellerVal a ≤ topSellerVal b

instance : DecidableRel rankLE := fun a b => by
  unfold rankLE
  infer_instance

/-- The filter record `filterAndRank` builds from the intent (JS truthiness:
a zero budget bound is not applied, an empty or `"null"` occasion is
skipped). -/
def buildFilters (intent : Intent) : Filters :=
  let f : Filters := {}
  let f := match intent.budget_min with
    | some b => if ¬ b = 0 then { f with minBudget := some b } else f
    | none => f
  let f := match intent.budget_max with
    | some b => if ¬ b = 0 then { f with maxBudget := some b } else f
    | none => f
  let f := match intent.occasion with
    | some occ =>
        if ¬ occ = "" ∧ ¬ occ = "null" then { f with occasion := some (underscoreToSpace occ) }
        else f
    | none => f
  let f := if ¬ intent.dietary_restrictions = [] then
      { f with excludeIngredients := intent.dietary_restrictions } else f
  let f := if intent.urgency = some "one_hour" ∨ intent.urgency = some "same_day" then
      { f with urgentDelivery := true } else f
  f

/-- `filterAndRank(products, intent)` from `aiPipeline.js`: build the filter
record from the intent, apply `filterProducts`, then the stable two-key
sort. `Array.prototype.sort` is stable (ES2019) and `rankLE` is a total
preorder, so the sort is embedded as `List.insertionSort`. -/
def filterAndRank (products : List Product) (intent : Intent) : List Product :=
  List.insertionSort rankLE (filterProducts products (buildFilters intent))

/-- JS `Map.set`: update an existing key in place (keeping its position),
else append. -/
def mapInsert (m : List (String × DisplayProduct)) (k : String) (v : DisplayProduct) :
    List (String × DisplayProduct) :=
  if m.any (fun e => e.1 = k) then m.map (fun e => if e.1 = k then (k, v) else e)
  else m ++ [(k, v)]

/-- `new Map(list.map(p => [String(p.id), p]))` — insertion order preserved;
product identifiers are already strings in this model, so `String(p.id)` is
the identity. -/
def mapOfList (l : List DisplayProduct) : List (String × DisplayProduct) :=
  l.foldl (fun m p => mapInsert m p.id p) []

/-- JS `Map.get`. -/
def mapGet (m : List (String × DisplayProduct)) (k : String) : Option DisplayProduct :=
  (m.find? (fun e => e.1 = k)).map (fun e => e.2)

/-- JS `Map.delete`. -/
def mapDelete (m : List (String × DisplayProduct)) (k : String) :
    List (String × DisplayProduct) :=
  m.filter (fun e => ¬ e.1 = k)

/-- One iteration of the `mentionedIds.forEach` loop of
`reorderProductsByMention`: look the id up in the (shrinking) display map,
else in the full availability map; a hit is appended to `reordered` and
deleted from the display map, a miss in both is skipped. -/
def mentionStep (allProductsMap : List (String × DisplayProduct))
    (st : List DisplayProduct × List (String × DisplayProduct)) (i : String) :
    List DisplayProduct × List (String × DisplayProduct) :=
  match mapGet st.2 i with
  | some product => (st.1 ++ [product], mapDelete st.2 i)
  | none =>
      match mapGet allProductsMap i with
      | some product => (st.1 ++ [product], mapDelete st.2 i)
      | none => st

/-- `reorderProductsByMention(aiResponse, displayProducts,
allAvailableProducts)` from `aiPipeline.js`. -/
def reorderProductsByMention (aiResponse : String)
    (displayProducts allAvailableProducts : List DisplayProduct) : List DisplayProduct :=
  let mentionedIds := extractMentionedIds aiResponse
  if mentionedIds = [] then displayProducts
  else
    let displayMap := mapOfList displayProducts
    let allProductsMap := mapOfList allAvailableProducts
    let st := mentionedIds.foldl (mentionStep allProductsMap) ([], displayMap)
    let reordered := st.1
    let remaining := st.2.map (fun e => e.2)
    let slotsLeft := 8 - reordered.length
    if 0 < slotsLeft then reordered ++ remaining.take slotsLeft else reordered

/-- A mentioned id resolved "from the nominal list if present there, else
from the broader list" — the lookup order the specification describes. -/
def lookupMention (display broader : List DisplayProduct) (i : String) :
    Option DisplayProduct :=
  match display.find? (fun p => p.id = i) with
  | some p => some p
  | none => broader.find? (fun p => p.id = i)

/-- Reconciliation as the specification words it: mentioned products first in
mention order (nominal list first, else broader list, misses dropped), then
the leftover nominal-display products in their prior relative order, filling
up to 8 slots in total. -/
def reorderSpecDescription (aiResponse : String)
    (display broader : List DisplayProduct) : List DisplayProduct :=
  let mentioned := extractMentionedIds aiResponse
  if mentioned = [] then display
  else
    let mentionedPart := mentioned.filterMap (lookupMention display broader)
    let leftover := display.filter (fun p => ¬ mentioned.contains p.id)
    mentionedPart ++ leftover.take (8 - mentionedPart.length)

/-- The `{message, products, intent}` triple a pipeline turn returns. -/
structure PipelineResult where
  message : String
  products : List DisplayProduct
  intent : Intent
  deriving Repr, DecidableEq

/-- The `{stream, products, allAvailableProducts?, intent}` result of the
streaming variant; the stream is modelled by the full text it will yield,
and `allAvailableProducts` is absent on the clarification path. -/
structure StreamResult where
  stream : String
  products : List DisplayProduct
  allAvailableProducts : Option (List DisplayProduct)
  intent : Intent
  deriving Repr, DecidableEq

/-- The pipeline's external collaborators for one turn: the `JSON.parse`
oracle, the inference gateway's replies (intent extraction, clarification,
response generation — prompt construction only influences the model, which
is unconstrained here, so replies are modelled as turn-level values), the
catalog network oracle and the clock. -/
structure Oracle where
  jsonParse : String → Option Intent
  intentRaw : String
  clarifyText : String
  respText : String
  net : String → NetResult
  now : Nat

/-- The catalog-facing part of an `Oracle`. -/
def Oracle.searchCtx (o : Oracle) : SearchCtx :=
  { net := o.net, now := o.now }

/-- `processMessage(userMessage, conversationHistory)` from `aiPipeline.js`,
returning the result, the updated search cache and the external events in
order. Conversation history only feeds prompt text, which the gateway
oracle absorbs. -/
def processMessage (o : Oracle) (cache : Cache) (userMessage : String)
    (conversationHistory : List Turn) : PipelineResult × Cache × List Event :=
  let intent := extractIntent o.jsonParse o.intentRaw userMessage
  if intent.needs_clarification then
    ({ message := o.clarifyText, products := [], intent := intent }, cache,
      [Event.llmComplete, Event.llmComplete])
  else
    let sr := searchFromIntent o.searchCtx cache intent
    let rankedProducts := filterAndRank sr.1 intent
    let topProducts := rankedProducts.take 10
    let _productsForLLM := topProducts.map cleanProductForLLM
    let displayProducts := (rankedProducts.take 8).map formatProductForDisplay
    let allAvailableProducts := topProducts.map formatProductForDisplay
    let aiResponse := o.respText
    let reorderedProducts := reorderProductsByMention aiResponse displayProducts allAvailableProducts
    ({ message := aiResponse, products := reorderedProducts, intent := intent }, sr.2.1,
      Event.llmComplete :: sr.2.2 ++ [Event.llmComplete])

/-- `processMessageStream(userMessage, conversationHistory)` from
`aiPipeline.js`: same branching, but the display set is provisional (no
reconciliation) and the broader set rides along for the client. -/
def processMessageStream (o : Oracle) (cache : Cache) (userMessage : String)
    (conversationHistory : List Turn) : StreamResult × Cache × List Event :=
  let intent := extractIntent o.jsonParse o.intentRaw userMessage
  if intent.needs_clarification then
    ({ stream := o.clarifyText, products := [], allAvailableProducts := none,
       intent := intent }, cache, [Event.llmComplete, Event.llmStream])
  else
    let sr := searchFromIntent o.searchCtx cache intent
    let rankedProducts := filterAndRank sr.1 intent
    let topProducts := rankedProducts.take 10
    let _productsForLLM := topProducts.map cleanProductForLLM
    let displayProducts := (rankedProducts.take 8).map formatProductForDisplay
    let allAvailableProducts := topProducts.map formatProductForDisplay
    ({ stream := o.respText, products := displayProducts,
       allAvailableProducts := some allAvailableProducts, intent := intent }, sr.2.1,
      Event.llmComplete :: sr.2.2 ++ [Event.llmStream])

/-- `compareProducts(productIds, allProducts, userContext)` from
`aiPipeline.js`: fewer than two matching products short-circuits to a
validation message before any gateway call; otherwise the comparison prompt
is sent (reply modelled by `respText`). -/
def compareProducts (respText : String) (productIds : List String)
    (allProducts : List Product) (userContext : String) : String × List Event :=
  let productsToCompare :=
    (allProducts.filter (fun p => productIds.contains p.id)).map cleanProductForLLM
  if productsToCompare.length < 2 then
    ("Please select at least 2 products to compare.", [])
  else
    (respText, [Event.llmComplete])

/-- A sample product for concrete witnesses. -/
def sampleProduct : Product :=
  { id := "101", name := "Berry Box", minPrice := some 30, maxPrice := some 60,
    occasion := "Birthday Gifts", ingrediantNames := "strawberry, chocolate",
    isOneHourDelivery := true, searchScore := 2 }

/-- A sample filter set for concrete witnesses. -/
def sampleFilters : Filters :=
  { minBudget := some 10, maxBudget := some 50, occasion := some "anniversary" }

/-- The canonical "first-seen order" selection the specification describes:
keep each product whose identifier has not already been seen, in input
order. -/
def dedupKeepFirstFrom (seen : List String) : List Product → List Product
  | [] => []
  | p :: rest =>
      if seen.contains p.id then dedupKeepFirstFrom seen rest
      else p :: dedupKeepFirstFrom (p.id :: seen) rest
/-- The claim's concrete nominal display list: ids 10,20,…,80. -/
def exampleDisplay : List DisplayProduct :=
  ["10", "20", "30", "40", "50", "60", "70", "80"].map (fun i => { id := i })

/-- The claim's broader availability list: the nominal eight plus 55 and 99. -/
def exampleBroader : List DisplayProduct :=
  exampleDisplay ++ [{ id := "55" }, { id := "99" }]

/-- A response mentioning 20, then 55, then 20 again. -/
def exampleResponse : String :=
  "Classic [ID:20] first, deluxe [ID:55] second, and [ID:20] again."
/-- An intent whose extraction flags the turn as too vague. -/
def clarifyIntentValue : Intent :=
  { needs_clarification := true, clarification_topic := some "occasion" }

/-- An oracle whose intent extraction parses to `clarifyIntentValue`. -/
def clarifyOracle : Oracle :=
  { jsonParse := fun _ => some clarifyIntentValue
    intentRaw := "vague"
    clarifyText := "Could you share the occasion?"
    respText := ""
    net := fun _ => NetResult.ok []
    now := 0 }
/-- A ten-product catalog slice with identifiers 1–10. -/
def cexProducts : List Product :=
  [{ id := "1" }, { id := "2" }, { id := "3" }, { id := "4" }, { id := "5" },
    { id := "6" }, { id := "7" }, { id := "8" }, { id := "9" }, { id := "10" }]

/-- An oracle whose generated response mentions nine distinct catalog
identifiers, all available among the ranked top ten. -/
def cexOracle : Oracle :=
  { jsonParse := fun _ => some { search_keywords := ["gift"] }
    intentRaw := "raw"
    clarifyText := ""
    respText := "[ID:1] [ID:2] [ID:3] [ID:4] [ID:5] [ID:6] [ID:7] [ID:8] [ID:9]"
    net := fun _ => NetResult.ok cexProducts
    now := 0 }

/-! ## Helper lemmas about the filter steps -/

theorem filterProducts_decomp (l : List Product) (f : Filters) :
    filterProducts l f =
      urgentStep f.urgentDelivery (dietStep f.excludeIngredients
        (occasionStep f.occasion (budgetMaxStep f.maxBudget
          (budgetMinStep f.minBudget l)))) := rfl

theorem filter_stable {p : Product → Bool} {src l' : List Product}
    (h : ∀ x ∈ l', x ∈ src.filter p) : l'.filter p = l' :=
  List.filter_eq_self.mpr (fun x hx => (List.mem_filter.mp (h x hx)).2)

theorem mem_budgetMinStep {fb : Option ℚ} {l : List Product} {x : Product}
    (h : x ∈ budgetMinStep fb l) : x ∈ l := by
  cases fb with
  | none => exact h
  | some b => exact (List.mem_filter.mp h).1

theorem mem_budgetMaxStep {fb : Option ℚ} {l : List Product} {x : Product}
    (h : x ∈ budgetMaxStep fb l) : x ∈ l := by
  cases fb with
  | none => exact h
  | some b => exact (List.mem_filter.mp h).1

theorem mem_occasionStep {focc : Option String} {l : List Product} {x : Product}
    (h : x ∈ occasionStep focc l) : x ∈ l := by
  cases focc with
  | none => exact h
  | some occ =>
      simp only [occasionStep] at h
      split at h
      · exact h
      · split at h
        · exact h
        · exact (List.mem_filter.mp h).1

theorem mem_dietStep {fe : List String} {l : List Product} {x : Product}
    (h : x ∈ dietStep fe l) : x ∈ l := by
  simp only [dietStep] at h
  split at h
  · exact h
  · exact (List.mem_filter.mp h).1

theorem mem_urgentStep {fu : Bool} {l : List Product} {x : Product}
    (h : x ∈ urgentStep fu l) : x ∈ l := by
  simp only [urgentStep] at h
  split at h
  · exact (List.mem_filter.mp h).1
  · exact h

theorem budgetMinStep_stable {fb : Option ℚ} {l l' : List Product}
    (h : ∀ x ∈ l', x ∈ budgetMinStep fb l) : budgetMinStep fb l' = l' := by
  cases fb with
  | none => rfl
  | some b => exact filter_stable h

theorem budgetMaxStep_stable {fb : Option ℚ} {l l' : List Product}
    (h : ∀ x ∈ l', x ∈ budgetMaxStep fb l) : budgetMaxStep fb l' = l' := by
  cases fb with
  | none => rfl
  | some b => exact filter_stable h

theorem occasionStep_stable {focc : Option String} {l l' : List Product}
    (h : ∀ x ∈ l', x ∈ occasionStep focc l) : occasionStep focc l' = l' := by
  cases focc with
  | none => rfl
  | some occ =>
      by_cases hocc : occ = ""
      · simp [occasionStep, hocc]
      · by_cases hnil : l.filter (occMatch occ) = []
        · have hfail : ∀ x ∈ l, ¬ occMatch occ x := List.filter_eq_nil_iff.mp hnil
          have hsub : ∀ x ∈ l', x ∈ l := by
            intro x hx
            have := h x hx
            simp only [occasionStep, hocc, hnil, if_neg, if_pos] at this
            · exact this
          have hnil' : l'.filter (occMatch occ) = [] :=
            List.filter_eq_nil_iff.mpr (fun x hx => hfail x (hsub x hx))
          simp [occasionStep, hocc, hnil']
        · have hkeep : ∀ x ∈ l', occMatch occ x := by
            intro x hx
            have := h x hx
            simp only [occasionStep, hocc, hnil, if_neg] at this
            exact (List.mem_filter.mp this).2
          have hself : l'.filter (occMatch occ) = l' :=
            List.filter_eq_self.mpr hkeep
          by_cases hl' : l' = []
          · simp [occasionStep, hocc, hself, hl']
          · simp [occasionStep, hocc, hself, hl']

theorem dietStep_stable {fe : List String} {l l' : List Product}
    (h : ∀ x ∈ l', x ∈ dietStep fe l) : dietStep fe l' = l' := by
  by_cases he : fe.isEmpty
  · simp [dietStep, he]
  · simp only [dietStep, he, if_neg, Bool.false_eq_true, not_false_iff] at h ⊢
    exact filter_stable h

theorem urgentStep_stable {fu : Bool} {l l' : List Product}
    (h : ∀ x ∈ l', x ∈ urgentStep fu l) : urgentStep fu l' = l' := by
  cases fu with
  | false => rfl
  | true =>
      simp only [urgentStep, if_pos] at h ⊢
      exact filter_stable h

theorem occasionStep_ne_nil {focc : Option String} {l : List Product}
    (h : ¬ l = []) : ¬ occasionStep focc l = [] := by
  cases focc with
  | none => exact h
  | some occ =>
      simp only [occasionStep]
      split
      · exact h
      · split
        · exact h
        · next hne => exact hne

/-! ## Helper lemmas about multiSearch deduplication -/


theorem foldl_dedupStep_flatten (sets : List (List Product))
    (st : List String × List Product) :
    sets.foldl (fun st resultSet => resultSet.foldl dedupStep st) st =
      sets.flatten.foldl dedupStep st := by
  induction sets generalizing st with
  | nil => rfl
  | cons a l ih => simp [List.flatten_cons, List.foldl_append, ih]

theorem foldl_dedupStep_eq (l : List Product) :
    ∀ (seen : List String) (acc : List Product),
      (l.foldl dedupStep (seen, acc)).2 = acc ++ dedupKeepFirstFrom seen l := by
  induction l with
  | nil => intro seen acc; simp [dedupKeepFirstFrom]
  | cons p rest ih =>
      intro seen acc
      by_cases hc : seen.contains p.id
      · simp only [List.foldl_cons, dedupStep, hc, if_pos, dedupKeepFirstFrom]
        exact ih seen acc
      · simp only [List.foldl_cons, dedupStep, hc, if_neg, Bool.false_eq_true,
          not_false_iff, dedupKeepFirstFrom]
        rw [ih (p.id :: seen) (acc ++ [p])]
        simp

theorem dedupKeepFirstFrom_sublist : ∀ (l : List Product) (seen : List String),
    List.Sublist (dedupKeepFirstFrom seen l) l := by
  intro l
  induction l with
  | nil => intro seen; simp [dedupKeepFirstFrom]
  | cons p rest ih =>
      intro seen
      by_cases hc : seen.contains p.id
      · simp only [dedupKeepFirstFrom, hc, if_pos]
        exact (ih seen).cons p
      · simp only [dedupKeepFirstFrom, hc, if_neg, Bool.false_eq_true, not_false_iff]
        exact (ih (p.id :: seen)).cons₂ p

theorem dedupKeepFirstFrom_nodup : ∀ (l : List Product) (seen : List String),
    ((dedupKeepFirstFrom seen l).map Product.id).Nodup ∧
      ∀ i ∈ (dedupKeepFirstFrom seen l).map Product.id, ¬ i ∈ seen := by
  intro l
  induction l with
  | nil => intro seen; simp [dedupKeepFirstFrom]
  | cons p rest ih =>
      intro seen
      by_cases hc : seen.contains p.id
      · simp only [dedupKeepFirstFrom, hc, if_pos]
        exact ih seen
      · have hnotmem : ¬ p.id ∈ seen := by
          intro hmem
          exact hc (List.elem_iff.mpr hmem)
        simp only [dedupKeepFirstFrom, hc, if_neg, Bool.false_eq_true, not_false_iff,
          List.map_cons, List.nodup_cons]
        obtain ⟨hnd, hni⟩ := ih (p.id :: seen)
        refine ⟨⟨fun hmem => ?_, hnd⟩, ?_⟩
        · exact hni p.id hmem (List.mem_cons_self p.id seen)
        · intro i hi
          rcases List.mem_cons.mp hi with h1 | h2
          · rw [h1]; exact hnotmem
          · intro hmem
            exact hni i h2 (List.mem_cons_of_mem _ hmem)

theorem dedupById_eq (sets : List (List Product)) :
    dedupById sets = dedupKeepFirstFrom [] sets.flatten := by
  unfold dedupById
  rw [foldl_dedupStep_flatten]
  simpa using foldl_dedupStep_eq sets.flatten [] []

theorem multiSearch_ids_nodup (ctx : SearchCtx) (cache : Cache)
    (keywords? : Option (List String)) :
    ((multiSearch ctx cache keywords?).1.map Product.id).Nodup := by
  match keywords? with
  | none => simp [multiSearch]
  | some kws =>
      by_cases hk : kws = []
      · subst hk
        simp [multiSearch]
      · simp only [multiSearch, List.length_eq_zero]
        rw [if_neg hk]
        rw [dedupById_eq]
        exact (dedupKeepFirstFrom_nodup _ []).1

/-! ## Claim theorems: multiSearch (C5), searchProducts (C6) -/

/-- C5: for every keyword list, `multiSearch` returns a sequence with no
duplicate product identifiers that is exactly the first-seen-order
selection (an order-preserving sublist) of the concatenation of the
per-keyword result sets in keyword order; an absent or empty keyword list
yields `[]` with no search call and an untouched cache. -/
theorem C5_multiSearch_dedup (ctx : SearchCtx) (cache : Cache)
    (keywords? : Option (List String)) :
    ((multiSearch ctx cache keywords?).1.map Product.id).Nodup ∧
    (∀ kws, keywords? = some kws → ¬ kws = [] →
      (multiSearch ctx cache keywords?).1 =
        dedupKeepFirstFrom [] (runSearches ctx cache kws).1.flatten ∧
      List.Sublist (multiSearch ctx cache keywords?).1 (runSearches ctx cache kws).1.flatten) ∧
    ((keywords? = none ∨ keywords? = some []) →
      multiSearch ctx cache keywords? = ([], cache, [])) := by
  match keywords? with
  | none =>
      refine ⟨by simp [multiSearch], ?_, fun _ => rfl⟩
      intro kws h
      exact absurd h (by simp)
  | some kws =>
      by_cases hk : kws = []
      · subst hk
        refine ⟨by simp [multiSearch], ?_, fun _ => rfl⟩
        intro kws' h hne
        cases h
        exact absurd rfl hne
      · have hm : (multiSearch ctx cache (some kws)).1 =
            dedupKeepFirstFrom [] (runSearches ctx cache kws).1.flatten := by
          simp only [multiSearch, List.length_eq_zero]
          rw [if_neg hk]
          exact dedupById_eq _
        refine ⟨?_, ?_, ?_⟩
        · exact multiSearch_ids_nodup ctx cache (some kws)
        · intro kws' h hne
          cases h
          exact ⟨hm, hm ▸ dedupKeepFirstFrom_sublist _ []⟩
        · intro h
          rcases h with h | h
          · cases h
          · cases h; exact absurd rfl hk

/-- Witness for C5 at a concrete input: two keywords whose result sets
overlap on id 101. -/
theorem C5_witness :
    ((multiSearch { net := fun _ => NetResult.ok [sampleProduct], now := 0 } []
        (some ["berry", "gift"])).1.map Product.id).Nodup ∧
    (multiSearch { net := fun _ => NetResult.ok [sampleProduct], now := 0 } []
        (some ["berry", "gift"])).1 =
      dedupKeepFirstFrom []
        (runSearches { net := fun _ => NetResult.ok [sampleProduct], now := 0 } []
          ["berry", "gift"]).1.flatten ∧
    multiSearch { net := fun _ => NetResult.ok [sampleProduct], now := 0 } [] (some []) =
      ([], [], []) := by
  have h1 := C5_multiSearch_dedup { net := fun _ => NetResult.ok [sampleProduct], now := 0 }
    [] (some ["berry", "gift"])
  have h2 := C5_multiSearch_dedup { net := fun _ => NetResult.ok [sampleProduct], now := 0 }
    [] (some [])
  exact ⟨h1.1, (h1.2.1 ["berry", "gift"] rfl (by simp)).1, h2.2.2 (Or.inr rfl)⟩

/-- C6: `searchProducts` returns `[]` without any network request for an
empty or whitespace-only keyword, and degrades a non-success response or a
transport failure to `[]` (it is total — no error escapes) whenever the
request is actually issued, i.e. when no fresh cache entry short-circuits
it. -/
theorem C6_searchProducts_degrades (ctx : SearchCtx) (cache : Cache) (keyword : String) :
    (jsTrim keyword = "" →
      searchProducts ctx cache keyword = ([], cache, [Event.clientSearch keyword]) ∧
      ∀ k, ¬ Event.netRequest k ∈ (searchProducts ctx cache keyword).2.2) ∧
    (∀ s, ¬ jsTrim keyword = "" →
      (∀ c, cacheLookup cache (jsTrim (jsToLower keyword)) = some c →
        ¬ ctx.now - c.2 < CACHE_TTL) →
      (ctx.net (jsTrim (jsToLower keyword)) = NetResult.httpError s ∨
        ctx.net (jsTrim (jsToLower keyword)) = NetResult.transportError) →
      (searchProducts ctx cache keyword).1 = []) := by
  constructor
  · intro h
    have he : searchProducts ctx cache keyword = ([], cache, [Event.clientSearch keyword]) := by
      simp [searchProducts, h]
    refine ⟨he, ?_⟩
    intro k
    rw [he]
    simp
  · intro s hne hcache hnet
    simp only [searchProducts, if_neg hne]
    split
    · next cached heq =>
        rw [if_neg (hcache cached heq)]
        rcases hnet with h | h <;> simp [fetchProducts, h]
    · rcases hnet with h | h <;> simp [fetchProducts, h]

/-- Witness for C6: a whitespace-only keyword makes no request, and a
server error on keyword "berry" degrades to `[]`. -/
theorem C6_witness :
    (searchProducts { net := fun _ => NetResult.httpError 500, now := 0 } [] "  " =
      ([], [], [Event.clientSearch "  "]) ∧
      ∀ k, ¬ Event.netRequest k ∈
        (searchProducts { net := fun _ => NetResult.httpError 500, now := 0 } [] "  ").2.2) ∧
    (searchProducts { net := fun _ => NetResult.httpError 500, now := 0 } [] "berry").1 = [] := by
  have h1 := C6_searchProducts_degrades { net := fun _ => NetResult.httpError 500, now := 0 } [] "  "
  have h2 := C6_searchProducts_degrades { net := fun _ => NetResult.httpError 500, now := 0 } [] "berry"
  refine ⟨h1.1 (by decide), ?_⟩
  exact h2.2 500 (by decide) (fun c hc => by simp [cacheLookup] at hc) (Or.inl rfl)

/-! ## Claim theorems: intent extraction fallback (C7) -/

/-- C7: whenever the model's reply fails to parse as JSON (after stripping
markdown code fences), intent extraction returns — never throws — the
fallback Intent: `needs_clarification = false`, `intent_type = "browse"`,
and a non-empty keyword sequence derived from the first three words of the
raw user message. -/
theorem C7_intent_parse_fallback (jsonParse : String → Option Intent)
    (result userMessage : String)
    (h : jsonParse (stripFencesIfAny result) = none) :
    extractIntent jsonParse result userMessage = fallbackIntent userMessage ∧
    (extractIntent jsonParse result userMessage).needs_clarification = false ∧
    (extractIntent jsonParse result userMessage).intent_type = "browse" ∧
    ¬ (extractIntent jsonParse result userMessage).search_keywords = [] ∧
    (extractIntent jsonParse result userMessage).search_keywords =
      [joinSpace ((jsSplitSpace userMessage).take 3)] := by
  have he : extractIntent jsonParse result userMessage = fallbackIntent userMessage := by
    unfold extractIntent
    rw [h]
  refine ⟨he, ?_, ?_, ?_, ?_⟩ <;> rw [he] <;> simp [fallbackIntent]

/-- Witness for C7: a non-JSON model reply falls back to browsing on the
first three words of the message. -/
theorem C7_witness :
    extractIntent (fun _ => none) "Sure! Here are some ideas." "birthday gift for mom" =
      fallbackIntent "birthday gift for mom" ∧
    (extractIntent (fun _ => none) "Sure! Here are some ideas."
      "birthday gift for mom").needs_clarification = false ∧
    (extractIntent (fun _ => none) "Sure! Here are some ideas."
      "birthday gift for mom").intent_type = "browse" ∧
    ¬ (extractIntent (fun _ => none) "Sure! Here are some ideas."
      "birthday gift for mom").search_keywords = [] ∧
    (extractIntent (fun _ => none) "Sure! Here are some ideas."
      "birthday gift for mom").search_keywords = ["birthday gift for"] := by
  have h := C7_intent_parse_fallback (fun _ => none) "Sure! Here are some ideas."
    "birthday gift for mom" rfl
  refine ⟨h.1, h.2.1, h.2.2.1, h.2.2.2.1, ?_⟩
  rw [h.2.2.2.2]
  rfl

/-! ## Claim theorems: compareProducts validation (C9) -/

/-- C9: a comparison request with fewer than 2 product identifiers (over a
catalog slice with distinct identifiers, per the data model) returns the
validation message and performs no model call. -/
theorem C9_compare_too_few (respText : String) (productIds : List String)
    (allProducts : List Product) (userContext : String)
    (hlen : productIds.length < 2) (hnd : (allProducts.map Product.id).Nodup) :
    compareProducts respText productIds allProducts userContext =
      ("Please select at least 2 products to compare.", []) := by
  have hsub : List.Sublist
      ((allProducts.filter (fun p => productIds.contains p.id)).map Product.id)
      (allProducts.map Product.id) :=
    (List.filter_sublist allProducts).map Product.id
  have hnd2 : ((allProducts.filter (fun p => productIds.contains p.id)).map Product.id).Nodup :=
    hnd.sublist hsub
  have hss : ∀ i ∈ (allProducts.filter (fun p => productIds.contains p.id)).map Product.id,
      i ∈ productIds := by
    intro i hi
    obtain ⟨p, hp, hpid⟩ := List.mem_map.mp hi
    have := (List.mem_filter.mp hp).2
    rw [← hpid]
    exact List.elem_iff.mp this
  have hle := (hnd2.subperm hss).length_le
  rw [List.length_map] at hle
  have hlt : (allProducts.filter (fun p => productIds.contains p.id)).length < 2 :=
    lt_of_le_of_lt hle hlen
  simp only [compareProducts]
  rw [if_pos (by simpa using hlt)]

/-- Witness for C9: one identifier selected out of a one-product catalog. -/
theorem C9_witness :
    compareProducts "comparison text" ["101"] [sampleProduct] "" =
      ("Please select at least 2 products to compare.", []) := by
  refine C9_compare_too_few "comparison text" ["101"] [sampleProduct] "" ?_ ?_ <;> decide

/-! ## Claim theorems: filterProducts (C4, C8) -/

/-- C4: `filterProducts` applies its five filters in the fixed order
minBudget, maxBudget, occasion, dietary exclusion, urgent delivery, each
operating on the previous step's output; and the occasion step falls back
to its (post-budget) input whenever filtering would empty it, so it never
maps a non-empty input to an empty set. -/
theorem C4_filter_order_and_occasion_fallback (products : List Product) (f : Filters) :
    filterProducts products f =
      urgentStep f.urgentDelivery (dietStep f.excludeIngredients
        (occasionStep f.occasion (budgetMaxStep f.maxBudget
          (budgetMinStep f.minBudget products)))) ∧
    ∀ l : List Product, ¬ l = [] → ¬ occasionStep f.occasion l = [] :=
  ⟨filterProducts_decomp products f, fun _ h => occasionStep_ne_nil h⟩

/-- Witness for C4 at a concrete input (the occasion filter would empty the
set, so its fallback keeps the budget-filtered product). -/
theorem C4_witness :
    filterProducts [sampleProduct] sampleFilters =
      urgentStep sampleFilters.urgentDelivery (dietStep sampleFilters.excludeIngredients
        (occasionStep sampleFilters.occasion (budgetMaxStep sampleFilters.maxBudget
          (budgetMinStep sampleFilters.minBudget [sampleProduct])))) ∧
    ¬ occasionStep sampleFilters.occasion [sampleProduct] = [] := by
  have h := C4_filter_order_and_occasion_fallback [sampleProduct] sampleFilters
  exact ⟨h.1, h.2 [sampleProduct] (by decide)⟩

/-- C8: `filterProducts` is idempotent — for every product list and filter
set, running the filters over their own output (including through the
occasion-fallback branch) changes nothing. -/
theorem C8_filterProducts_idempotent (ps : List Product) (f : Filters) :
    filterProducts (filterProducts ps f) f = filterProducts ps f := by
  rw [filterProducts_decomp ps f]
  set A := budgetMinStep f.minBudget ps with hA
  set B := budgetMaxStep f.maxBudget A with hB
  set C := occasionStep f.occasion B with hC
  set D := dietStep f.excludeIngredients C with hD
  set X := urgentStep f.urgentDelivery D with hX
  have memXD : ∀ x ∈ X, x ∈ D := fun x hx => mem_urgentStep hx
  have memXC : ∀ x ∈ X, x ∈ C := fun x hx => mem_dietStep (memXD x hx)
  have memXB : ∀ x ∈ X, x ∈ B := fun x hx => mem_occasionStep (memXC x hx)
  have memXA : ∀ x ∈ X, x ∈ A := fun x hx => mem_budgetMaxStep (memXB x hx)
  rw [filterProducts_decomp X f]
  rw [budgetMinStep_stable (l := ps) (fun x hx => by rw [← hA]; exact memXA x hx)]
  rw [budgetMaxStep_stable (l := A) (fun x hx => by rw [← hB]; exact memXB x hx)]
  rw [occasionStep_stable (l := B) (fun x hx => by rw [← hC]; exact memXC x hx)]
  rw [dietStep_stable (l := C) (fun x hx => by rw [← hD]; exact memXD x hx)]
  rw [urgentStep_stable (l := D) (fun x hx => by rw [← hX]; exact hx)]

/-! ## Helper lemmas about reconciliation -/

theorem foldl_dedupFirst_nodup : ∀ (l : List String) (acc : List String), acc.Nodup →
    (l.foldl (fun acc i => if acc.contains i then acc else acc ++ [i]) acc).Nodup := by
  intro l
  induction l with
  | nil => intro acc h; exact h
  | cons i rest ih =>
      intro acc h
      simp only [List.foldl_cons]
      by_cases hc : acc.contains i
      · rw [if_pos hc]
        exact ih acc h
      · rw [if_neg hc]
        apply ih
        have hmem : ¬ i ∈ acc := fun hm => hc (List.elem_iff.mpr hm)
        simp [List.nodup_append, h, hmem]

theorem dedupFirst_nodup (l : List String) : (dedupFirst l).Nodup :=
  foldl_dedupFirst_nodup l [] (by simp)

theorem extractMentionedIds_nodup (r : String) : (extractMentionedIds r).Nodup :=
  dedupFirst_nodup _

theorem mapGet_map (d : List DisplayProduct) (k : String) :
    mapGet (d.map (fun p => (p.id, p))) k = d.find? (fun p => p.id = k) := by
  induction d with
  | nil => rfl
  | cons q rest ih =>
      simp only [mapGet, List.map_cons, List.find?_cons] at *
      by_cases hq : q.id = k
      · simp [hq]
      · have h2 : (decide (q.id = k)) = false := by simp [hq]
        simp only [h2]
        exact ih

theorem mapDelete_map (d : List DisplayProduct) (k : String) :
    mapDelete (d.map (fun p => (p.id, p))) k =
      (d.filter (fun p => ¬ p.id = k)).map (fun p => (p.id, p)) := by
  unfold mapDelete
  rw [List.filter_map]
  rfl

theorem find?_filter_ne (d : List DisplayProduct) (i j : String) (hne : ¬ j = i) :
    (d.filter (fun p => ¬ p.id = i)).find? (fun p => p.id = j) =
      d.find? (fun p => p.id = j) := by
  induction d with
  | nil => rfl
  | cons q rest ih =>
      by_cases hq : q.id = i
      · have h1 : (decide (¬ q.id = i)) = false := by simp [hq]
        have h2 : (decide (q.id = j)) = false := by simp [hq]; intro he; exact hne (he ▸ hq ▸ rfl)
        rw [List.filter_cons]
        rw [h1]
        simp only [if_neg Bool.false_ne_true]
        rw [List.find?_cons]
        rw [h2]
        exact ih
      · have h1 : (decide (¬ q.id = i)) = true := by simp [hq]
        rw [List.filter_cons, h1]
        simp only [if_pos]
        rw [List.find?_cons, List.find?_cons]
        by_cases hj : q.id = j
        · simp [hj]
        · have h2 : (decide (q.id = j)) = false := by simp [hj]
          simp only [h2]
          exact ih

theorem foldl_mapInsert_eq : ∀ (l : List DisplayProduct) (acc : List (String × DisplayProduct)),
    (∀ p ∈ l, acc.any (fun e => e.1 = p.id) = false) → (l.map DisplayProduct.id).Nodup →
    l.foldl (fun m p => mapInsert m p.id p) acc = acc ++ l.map (fun p => (p.id, p)) := by
  intro l
  induction l with
  | nil => intro acc _ _; simp
  | cons p rest ih =>
      intro acc hacc hnd
      have hnd' : (∀ x ∈ rest, ¬ x.id = p.id) ∧ (rest.map DisplayProduct.id).Nodup := by
        simpa using hnd
      simp only [List.foldl_cons]
      have h1 : mapInsert acc p.id p = acc ++ [(p.id, p)] := by
        unfold mapInsert
        rw [hacc p (by simp)]
        simp
      rw [h1, ih (acc ++ [(p.id, p)]) ?_ hnd'.2]
      · simp
      · intro q hq
        rw [List.any_append]
        have hne : ¬ p.id = q.id := fun he => hnd'.1 q hq he.symm
        simp only [Bool.or_eq_false_iff]
        exact ⟨hacc q (List.mem_cons_of_mem _ hq), by simp [hne]⟩

theorem mapOfList_eq_of_nodup (l : List DisplayProduct)
    (h : (l.map DisplayProduct.id).Nodup) :
    mapOfList l = l.map (fun p => (p.id, p)) := by
  unfold mapOfList
  simpa using foldl_mapInsert_eq l [] (fun p _ => rfl) h

theorem mention_fold_spec (b : List DisplayProduct)
    (hb : (b.map DisplayProduct.id).Nodup) :
    ∀ (ms : List String) (d : List DisplayProduct) (acc : List DisplayProduct),
      ms.Nodup → (d.map DisplayProduct.id).Nodup →
      ms.foldl (mentionStep (mapOfList b)) (acc, d.map (fun p => (p.id, p))) =
        (acc ++ ms.filterMap (lookupMention d b),
          (d.filter (fun p => ¬ ms.contains p.id)).map (fun p => (p.id, p))) := by
  intro ms
  induction ms with
  | nil =>
      intro d acc _ _
      simp
  | cons i ms ih =>
      intro d acc hnd hdd
      have hms := List.nodup_cons.mp hnd
      simp only [List.foldl_cons]
      have hfilter_cons : ∀ (d' : List DisplayProduct), (∀ p ∈ d', ¬ p.id = i) →
          d'.filter (fun p => ¬ ms.contains p.id) =
            d'.filter (fun p => ¬ (i :: ms).contains p.id) := by
        intro d' hall
        apply List.filter_congr
        intro a ha
        have : ¬ a.id = i := hall a ha
        simp [List.contains_cons, this]
      cases hf : d.find? (fun p => p.id = i) with
      | some p =>
          have hstep : mentionStep (mapOfList b) (acc, d.map (fun p => (p.id, p))) i =
              (acc ++ [p], (d.filter (fun q => ¬ q.id = i)).map (fun q => (q.id, q))) := by
            simp only [mentionStep, mapGet_map, hf, mapDelete_map]
          rw [hstep]
          have hdd' : ((d.filter (fun q => ¬ q.id = i)).map DisplayProduct.id).Nodup :=
            hdd.sublist ((List.filter_sublist d).map DisplayProduct.id)
          rw [ih (d.filter (fun q => ¬ q.id = i)) (acc ++ [p]) hms.2 hdd']
          have hlook : lookupMention d b i = some p := by
            unfold lookupMention
            rw [hf]
          have hcongr : ms.filterMap (lookupMention (d.filter (fun q => ¬ q.id = i)) b) =
              ms.filterMap (lookupMention d b) := by
            apply List.filterMap_congr
            intro j hj
            have hne : ¬ j = i := fun he => hms.1 (he ▸ hj)
            unfold lookupMention
            rw [find?_filter_ne d i j hne]
          rw [hcongr, List.filterMap_cons_some hlook]
          refine congrArg₂ Prod.mk (by simp) ?_
          rw [List.filter_filter]
          congr 1
          apply List.filter_congr
          intro a _
          by_cases hai : a.id = i
          · simp [List.contains_cons, hai]
          · simp [List.contains_cons, hai]
      | none =>
          have hall : ∀ p ∈ d, ¬ p.id = i := by
            have := List.find?_eq_none.mp hf
            intro p hp
            simpa using this p hp
          have hdel : mapDelete (d.map (fun p => (p.id, p))) i =
              d.map (fun p => (p.id, p)) := by
            rw [mapDelete_map]
            congr 1
            apply List.filter_eq_self.mpr
            intro p hp
            simpa using hall p hp
          have hbget : mapGet (mapOfList b) i = b.find? (fun p => p.id = i) := by
            rw [mapOfList_eq_of_nodup b hb, mapGet_map]
          cases hbf : b.find? (fun p => p.id = i) with
          | some q =>
              have hstep : mentionStep (mapOfList b) (acc, d.map (fun p => (p.id, p))) i =
                  (acc ++ [q], d.map (fun p => (p.id, p))) := by
                simp only [mentionStep, mapGet_map, hf, hbget, hbf, hdel]
              rw [hstep, ih d (acc ++ [q]) hms.2 hdd]
              have hlook : lookupMention d b i = some q := by
                unfold lookupMention
                rw [hf, hbf]
              rw [List.filterMap_cons_some hlook]
              refine congrArg₂ Prod.mk (by simp) ?_
              rw [hfilter_cons d hall]
          | none =>
              have hstep : mentionStep (mapOfList b) (acc, d.map (fun p => (p.id, p))) i =
                  (acc, d.map (fun p => (p.id, p))) := by
                simp only [mentionStep, mapGet_map, hf, hbget, hbf]
              rw [hstep, ih d acc hms.2 hdd]
              have hlook : lookupMention d b i = none := by
                unfold lookupMention
                rw [hf, hbf]
              rw [List.filterMap_cons_none hlook]
              refine congrArg₂ Prod.mk rfl ?_
              rw [hfilter_cons d hall]

/-- Under distinct identifiers in each input list, the implementation's
map-based reconciliation computes exactly the specification's description. -/
theorem reorder_eq_spec (r : String) (d b : List DisplayProduct)
    (hd : (d.map DisplayProduct.id).Nodup) (hb : (b.map DisplayProduct.id).Nodup) :
    reorderProductsByMention r d b = reorderSpecDescription r d b := by
  unfold reorderProductsByMention reorderSpecDescription
  by_cases hm : extractMentionedIds r = []
  · simp [hm]
  · rw [if_neg hm, if_neg hm]
    rw [mapOfList_eq_of_nodup d hd]
    dsimp only
    rw [mention_fold_spec b hb (extractMentionedIds r) d [] (extractMentionedIds_nodup r) hd]
    simp only [List.nil_append, List.map_map]
    have hsnd : ((d.filter (fun p => ¬ (extractMentionedIds r).contains p.id)).map
        ((fun e => e.2) ∘ (fun p : DisplayProduct => (p.id, p)))) =
        d.filter (fun p => ¬ (extractMentionedIds r).contains p.id) := List.map_id' _
    rw [hsnd]
    set mp := (extractMentionedIds r).filterMap (lookupMention d b) with hmp
    set lf := d.filter (fun p => ¬ (extractMentionedIds r).contains p.id) with hlf
    by_cases hs : 0 < 8 - mp.length
    · rw [if_pos hs]
    · rw [if_neg hs]
      have h8 : 8 - mp.length = 0 := by omega
      rw [h8]
      simp





theorem lookupMention_id {d b : List DisplayProduct} {i : String} {p : DisplayProduct}
    (h : lookupMention d b i = some p) : p.id = i := by
  unfold lookupMention at h
  cases hf : d.find? (fun q => q.id = i) with
  | some q =>
      rw [hf] at h
      cases h
      simpa using List.find?_some hf
  | none =>
      rw [hf] at h
      simpa using List.find?_some h

theorem lookupMention_mem {d b : List DisplayProduct} {i : String} {p : DisplayProduct}
    (h : lookupMention d b i = some p) : p ∈ d ∨ p ∈ b := by
  unfold lookupMention at h
  cases hf : d.find? (fun q => q.id = i) with
  | some q =>
      rw [hf] at h
      cases h
      exact Or.inl (List.mem_of_find?_eq_some hf)
  | none =>
      rw [hf] at h
      exact Or.inr (List.mem_of_find?_eq_some h)

theorem filterMap_lookup_ids (ms : List String) (d b : List DisplayProduct) :
    (ms.filterMap (lookupMention d b)).map DisplayProduct.id =
      ms.filter (fun i => (lookupMention d b i).isSome) := by
  induction ms with
  | nil => rfl
  | cons i ms ih =>
      cases hl : lookupMention d b i with
      | some p =>
          rw [List.filterMap_cons_some hl, List.map_cons, ih, List.filter_cons]
          simp [hl, lookupMention_id hl]
      | none =>
          rw [List.filterMap_cons_none hl, ih, List.filter_cons]
          simp [hl]

/-! ## Claim theorems: reconciliation (C1, C10) -/


/-- C1: reconciliation extracts `[ID:n]` tags in order of first appearance
with duplicates collapsed, returns the nominal display list unchanged when
no tags are found, and otherwise places the mentioned products first in
mention order (from the nominal list if present there, else from the
broader list, dropping identifiers found in neither) followed by the
leftover nominal products in their prior relative order; in particular
tags 20,55,20 over nominal 10–80 with 55 in the broader set reconcile to
20,55,10,30,40,50,60,70. -/
theorem C1_reconciliation_matches_description (r : String) (d b : List DisplayProduct)
    (hd : (d.map DisplayProduct.id).Nodup) (hb : (b.map DisplayProduct.id).Nodup) :
    reorderProductsByMention r d b = reorderSpecDescription r d b ∧
    (extractMentionedIds r = [] → reorderProductsByMention r d b = d) ∧
    (reorderProductsByMention exampleResponse exampleDisplay exampleBroader).map
        DisplayProduct.id =
      ["20", "55", "10", "30", "40", "50", "60", "70"] := by
  refine ⟨reorder_eq_spec r d b hd hb, ?_, ?_⟩
  · intro h
    simp [reorderProductsByMention, h]
  · decide

/-- Witness for C1 at the claim's concrete inputs. -/
theorem C1_witness :
    reorderProductsByMention exampleResponse exampleDisplay exampleBroader =
      reorderSpecDescription exampleResponse exampleDisplay exampleBroader ∧
    (reorderProductsByMention exampleResponse exampleDisplay exampleBroader).map
        DisplayProduct.id =
      ["20", "55", "10", "30", "40", "50", "60", "70"] := by
  have h := C1_reconciliation_matches_description exampleResponse exampleDisplay exampleBroader
    (by decide) (by decide)
  exact ⟨h.1, h.2.2⟩

/-- C10: when each input list keys its products by distinct identifiers, the
reconciled output contains no product identifier more than once. -/
theorem C10_reconciled_ids_nodup (r : String) (d b : List DisplayProduct)
    (hd : (d.map DisplayProduct.id).Nodup) (hb : (b.map DisplayProduct.id).Nodup) :
    ((reorderProductsByMention r d b).map DisplayProduct.id).Nodup := by
  rw [reorder_eq_spec r d b hd hb]
  unfold reorderSpecDescription
  by_cases hm : extractMentionedIds r = []
  · simpa [hm] using hd
  · rw [if_neg hm]
    dsimp only
    rw [List.map_append, List.nodup_append]
    set ms := extractMentionedIds r with hms
    set lf := d.filter (fun p => ¬ ms.contains p.id) with hlf
    refine ⟨?_, ?_, ?_⟩
    · rw [filterMap_lookup_ids]
      exact (extractMentionedIds_nodup r).filter _
    · have hsub : List.Sublist
          ((lf.take (8 - (ms.filterMap (lookupMention d b)).length)).map DisplayProduct.id)
          (d.map DisplayProduct.id) :=
        ((List.take_sublist _ _).trans (List.filter_sublist d)).map DisplayProduct.id
      exact hd.sublist hsub
    · intro x hx1 hx2
      rw [filterMap_lookup_ids] at hx1
      have hxms : x ∈ ms := List.mem_of_mem_filter hx1
      obtain ⟨p, hp, hpx⟩ := List.mem_map.mp hx2
      have hplf : p ∈ lf := List.mem_of_mem_take hp
      have := (List.mem_filter.mp (hlf ▸ hplf)).2
      rw [hpx] at this
      simp only [decide_not, Bool.not_eq_true', decide_eq_false_iff_not] at this
      exact this (List.elem_iff.mpr hxms)

/-- Witness for C10 at the claim-C1 example inputs. -/
theorem C10_witness :
    ((reorderProductsByMention exampleResponse exampleDisplay exampleBroader).map
      DisplayProduct.id).Nodup := by
  exact C10_reconciled_ids_nodup exampleResponse exampleDisplay exampleBroader
    (by decide) (by decide)

/-! ## Claim theorems: clarification branch (C3) -/

/-- C3: on a turn whose extracted intent asks for clarification, both
pipeline variants return an empty product list and perform only
inference-gateway calls — the Catalog Client is never invoked and no
catalog network request happens. -/
theorem C3_clarification_skips_search (o : Oracle) (cache : Cache) (msg : String)
    (hist : List Turn)
    (h : (extractIntent o.jsonParse o.intentRaw msg).needs_clarification = true) :
    (processMessage o cache msg hist).1.products = [] ∧
    (processMessage o cache msg hist).2.2 = [Event.llmComplete, Event.llmComplete] ∧
    (∀ k, ¬ Event.clientSearch k ∈ (processMessage o cache msg hist).2.2 ∧
      ¬ Event.netRequest k ∈ (processMessage o cache msg hist).2.2) ∧
    (processMessageStream o cache msg hist).1.products = [] ∧
    (processMessageStream o cache msg hist).2.2 = [Event.llmComplete, Event.llmStream] ∧
    (∀ k, ¬ Event.clientSearch k ∈ (processMessageStream o cache msg hist).2.2 ∧
      ¬ Event.netRequest k ∈ (processMessageStream o cache msg hist).2.2) := by
  have hp : processMessage o cache msg hist =
      ({ message := o.clarifyText, products := [],
          intent := extractIntent o.jsonParse o.intentRaw msg }, cache,
        [Event.llmComplete, Event.llmComplete]) := by
    simp [processMessage, h]
  have hs : processMessageStream o cache msg hist =
      ({ stream := o.clarifyText, products := [], allAvailableProducts := none,
          intent := extractIntent o.jsonParse o.intentRaw msg }, cache,
        [Event.llmComplete, Event.llmStream]) := by
    simp [processMessageStream, h]
  rw [hp, hs]
  refine ⟨rfl, rfl, ?_, rfl, rfl, ?_⟩ <;> intro k <;> constructor <;> simp


/-- Witness for C3 at a concrete clarification turn. -/
theorem C3_witness :
    (processMessage clarifyOracle [] "gift" []).1.products = [] ∧
    (processMessageStream clarifyOracle [] "gift" []).1.products = [] ∧
    ¬ Event.clientSearch "gift" ∈ (processMessage clarifyOracle [] "gift" []).2.2 := by
  have h := C3_clarification_skips_search clarifyOracle [] "gift" [] (by decide)
  exact ⟨h.1, h.2.2.2.1, (h.2.2.1 "gift").1⟩

/-! ## Helper lemmas for the display-count bound -/

theorem budgetMinStep_sublist (fb : Option ℚ) (l : List Product) :
    List.Sublist (budgetMinStep fb l) l := by
  cases fb with
  | none => exact List.Sublist.refl l
  | some b => exact List.filter_sublist l

theorem budgetMaxStep_sublist (fb : Option ℚ) (l : List Product) :
    List.Sublist (budgetMaxStep fb l) l := by
  cases fb with
  | none => exact List.Sublist.refl l
  | some b => exact List.filter_sublist l

theorem occasionStep_sublist (focc : Option String) (l : List Product) :
    List.Sublist (occasionStep focc l) l := by
  cases focc with
  | none => exact List.Sublist.refl l
  | some occ =>
      simp only [occasionStep]
      split
      · exact List.Sublist.refl l
      · split
        · exact List.Sublist.refl l
        · exact List.filter_sublist l

theorem dietStep_sublist (fe : List String) (l : List Product) :
    List.Sublist (dietStep fe l) l := by
  simp only [dietStep]
  split
  · exact List.Sublist.refl l
  · exact List.filter_sublist l

theorem urgentStep_sublist (fu : Bool) (l : List Product) :
    List.Sublist (urgentStep fu l) l := by
  simp only [urgentStep]
  split
  · exact List.filter_sublist l
  · exact List.Sublist.refl l

theorem filterProducts_sublist (ps : List Product) (f : Filters) :
    List.Sublist (filterProducts ps f) ps := by
  rw [filterProducts_decomp]
  exact ((((urgentStep_sublist _ _).trans (dietStep_sublist _ _)).trans
    (occasionStep_sublist _ _)).trans (budgetMaxStep_sublist _ _)).trans
    (budgetMinStep_sublist _ _)

theorem filterAndRank_ids_nodup (ps : List Product) (intent : Intent)
    (h : (ps.map Product.id).Nodup) :
    ((filterAndRank ps intent).map Product.id).Nodup := by
  unfold filterAndRank
  have hperm := (List.perm_insertionSort rankLE
    (filterProducts ps (buildFilters intent))).map Product.id
  rw [hperm.nodup_iff]
  exact h.sublist ((filterProducts_sublist ps _).map Product.id)

theorem searchFromIntent_ids_nodup (ctx : SearchCtx) (cache : Cache) (intent : Intent) :
    ((searchFromIntent ctx cache intent).1.map Product.id).Nodup := by
  unfold searchFromIntent
  exact multiSearch_ids_nodup _ _ _

theorem reorderSpecDescription_length_le (r : String) (d b : List DisplayProduct)
    (hsub : ∀ i ∈ d.map DisplayProduct.id, i ∈ b.map DisplayProduct.id)
    (hd8 : d.length ≤ 8) :
    (reorderSpecDescription r d b).length ≤ max 8 b.length := by
  have h8M : 8 ≤ max 8 b.length := le_max_left _ _
  have hbM : b.length ≤ max 8 b.length := le_max_right _ _
  unfold reorderSpecDescription
  by_cases hm : extractMentionedIds r = []
  · rw [if_pos hm]
    omega
  · rw [if_neg hm]
    dsimp only
    rw [List.length_append]
    set ms := extractMentionedIds r with hms
    set mp := ms.filterMap (lookupMention d b) with hmp
    have hmp_ids : mp.map DisplayProduct.id =
        ms.filter (fun i => (lookupMention d b i).isSome) := filterMap_lookup_ids ms d b
    have hmp_nodup : (mp.map DisplayProduct.id).Nodup := by
      rw [hmp_ids]
      exact (extractMentionedIds_nodup r).filter _
    have hmp_sub : ∀ x ∈ mp.map DisplayProduct.id, x ∈ b.map DisplayProduct.id := by
      intro x hx
      obtain ⟨p, hp, hpx⟩ := List.mem_map.mp hx
      obtain ⟨i, _, hl⟩ := List.mem_filterMap.mp hp
      rcases lookupMention_mem hl with hmem | hmem
      · exact hsub x (hpx ▸ List.mem_map.mpr ⟨p, hmem, rfl⟩)
      · exact hpx ▸ List.mem_map.mpr ⟨p, hmem, rfl⟩
    have hmp_le : mp.length ≤ b.length := by
      have := (hmp_nodup.subperm hmp_sub).length_le
      simpa using this
    have htake := List.length_take_le (8 - mp.length)
      (d.filter (fun p => ¬ ms.contains p.id))
    omega

/-! ## Claim theorems: display-count bound (C2) -/


/-- C2 as stated is false: when the generated text mentions nine distinct
products of the broader top-10 set, `processMessage` returns nine products
— more than 8. -/
theorem C2_counterexample :
    (processMessage cexOracle [] "a gift" []).1.products.length = 9 ∧
    ¬ (processMessage cexOracle [] "a gift" []).1.products.length ≤ 8 := by
  constructor
  · decide
  · decide

/-- C2 amended: for every input, the products sequence of the
`PipelineResult` returned by `processMessage` contains at most 10 products
(10, not 8: every mentioned product of the broader top-10 set is placed in
front of the fill, and only the fill is capped at 8). -/
theorem C2_amended_products_at_most_ten (o : Oracle) (cache : Cache) (msg : String)
    (hist : List Turn) :
    (processMessage o cache msg hist).1.products.length ≤ 10 := by
  unfold processMessage
  dsimp only
  by_cases h : (extractIntent o.jsonParse o.intentRaw msg).needs_clarification = true
  · rw [if_pos h]
    simp
  · rw [if_neg h]
    set I := extractIntent o.jsonParse o.intentRaw msg with hI
    set ranked := filterAndRank (searchFromIntent o.searchCtx cache I).1 I with hranked
    have hr_nodup : (ranked.map Product.id).Nodup :=
      filterAndRank_ids_nodup _ _ (searchFromIntent_ids_nodup _ _ _)
    have hd_ids : ((ranked.take 8).map formatProductForDisplay).map DisplayProduct.id =
        (ranked.map Product.id).take 8 := by
      rw [List.map_map]
      rw [List.map_take]
      rfl
    have hb_ids : ((ranked.take 10).map formatProductForDisplay).map DisplayProduct.id =
        (ranked.map Product.id).take 10 := by
      rw [List.map_map]
      rw [List.map_take]
      rfl
    have hd_nodup : (((ranked.take 8).map formatProductForDisplay).map
        DisplayProduct.id).Nodup := by
      rw [hd_ids]
      exact hr_nodup.sublist (List.take_sublist _ _)
    have hb_nodup : (((ranked.take 10).map formatProductForDisplay).map
        DisplayProduct.id).Nodup := by
      rw [hb_ids]
      exact hr_nodup.sublist (List.take_sublist _ _)
    have hsub : ∀ i ∈ ((ranked.take 8).map formatProductForDisplay).map DisplayProduct.id,
        i ∈ ((ranked.take 10).map formatProductForDisplay).map DisplayProduct.id := by
      intro i hi
      rw [hd_ids] at hi
      rw [hb_ids]
      have he : (ranked.map Product.id).take 8 =
          ((ranked.map Product.id).take 10).take 8 := by
        rw [List.take_take]
        norm_num
      rw [he] at hi
      exact List.take_subset _ _ hi
    have hd8 : ((ranked.take 8).map formatProductForDisplay).length ≤ 8 := by
      rw [List.length_map]
      exact List.length_take_le _ _
    have hb10 : ((ranked.take 10).map formatProductForDisplay).length ≤ 10 := by
      rw [List.length_map]
      exact List.length_take_le _ _
    rw [reorder_eq_spec _ _ _ hd_nodup hb_nodup]
    have hlen := reorderSpecDescription_length_le o.respText _ _ hsub hd8
    have hmax : max 8 ((ranked.take 10).map formatProductForDisplay).length ≤ 10 :=
      max_le (by norm_num) hb10
    exact le_trans hlen hmax
